import Mathlib

/-!
# COAST TMR/DWC plugin shim and its annotated example programs

A shallow embedding of

* `projects/TMR/TMRNewPM.cpp`: the two new-pass-manager passes `TMRPass` and
  `DWCNewPMPass` and the pipeline-parsing callback registered by
  `llvmGetPassPluginInfo`;
* `tests/max-tests/base/test_arithmetic.c`, `test_recursive.c`,
  `test_arrays.c`, `test_loops.c`: the annotated example programs.

C `int` is a 32-bit two's-complement integer.  Signed overflow is undefined
behaviour in C, so every arithmetic operation of the examples is embedded as
a checked operation on `Int` whose outcome is `Outcome.overflow` when the
mathematical result leaves `[INT_MIN, INT_MAX]`.  Recursion and loops carry a
fuel argument; `Outcome.outOfFuel` is distinct from every outcome the C
program can have, so "enough fuel gives the result" is a statement about
termination.
-/

/-! ## C integers and outcomes -/

/-- Smallest value of a 32-bit `int`. -/
def INT_MIN : Int := -2147483648

/-- Largest value of a 32-bit `int`. -/
def INT_MAX : Int := 2147483647

/-- Outcome of running a piece of C code: a value, one of the two kinds of
undefined behaviour the examples can reach, or exhaustion of the fuel of the
embedding. -/
inductive Outcome (α : Type) where
  | ok (v : α)
  | overflow
  | outOfBounds
  | outOfFuel
  deriving DecidableEq, Repr

/-- Sequencing of outcomes: the first failure wins. -/
def Outcome.bind {α β : Type} (o : Outcome α) (k : α → Outcome β) : Outcome β :=
  match o with
  | .ok v => k v
  | .overflow => .overflow
  | .outOfBounds => .outOfBounds
  | .outOfFuel => .outOfFuel

/-- The mathematical integer `v` is a value of type `int`. -/
abbrev inIntRange (v : Int) : Prop := INT_MIN ≤ v ∧ v ≤ INT_MAX

/-- A mathematical integer as the result of an `int` operation. -/
def intResult (v : Int) : Outcome Int :=
  if inIntRange v then .ok v else .overflow

/-- C `a + b` on `int`. -/
def intAdd (a b : Int) : Outcome Int := intResult (a + b)

/-- C `a - b` on `int`. -/
def intSub (a b : Int) : Outcome Int := intResult (a - b)

/-- C `a * b` on `int`. -/
def intMul (a b : Int) : Outcome Int := intResult (a * b)

/-- The text `printf` writes for a `%d` conversion. -/
def fmtInt (v : Int) : String := toString v

/-! ## tests/max-tests/base/test_arithmetic.c -/

namespace test_arithmetic

/-- The function `int critical_computation(int x)`, whose body is
`return x * x + 2 * x + 1;`. -/
def critical_computation (x : Int) : Outcome Int :=
  (intMul x x).bind fun xx =>
  (intMul 2 x).bind fun x2 =>
  (intAdd xx x2).bind fun s =>
  intAdd s 1

/-- The function `main`: the text written to standard output and the value
returned. -/
def main : Outcome (String × Int) :=
  let input : Int := 5
  (critical_computation input).bind fun result =>
  .ok ("Arithmetic test: f(" ++ fmtInt input ++ ") = " ++ fmtInt result ++ "\n", result)

end test_arithmetic

/-! ## tests/max-tests/base/test_recursive.c -/

namespace test_recursive

/-- The body of `fibonacci`, with the recursive calls made through `self`:
`if (n <= 1) return n; return fibonacci(n-1) + fibonacci(n-2);` -/
def fibonacciBody (self : Int → Outcome Int) (n : Int) : Outcome Int :=
  if n ≤ 1 then .ok n
  else
    (intSub n 1).bind fun a =>
    (self a).bind fun fa =>
    (intSub n 2).bind fun b =>
    (self b).bind fun fb =>
    intAdd fa fb

/-- The function `int fibonacci(int n)`; `fuel` bounds the depth of the call
stack. -/
def fibonacci : Nat → Int → Outcome Int
  | 0, _ => .outOfFuel
  | fuel + 1, n => fibonacciBody (fibonacci fuel) n

/-- The function `main`: the text written to standard output and the value
returned. -/
def main (fuel : Nat) : Outcome (String × Int) :=
  let n : Int := 10
  (fibonacci fuel n).bind fun fib =>
  .ok ("Recursive test: fib(" ++ fmtInt n ++ ") = " ++ fmtInt fib ++ "\n", 0)

end test_recursive

/-! ## tests/max-tests/base/test_arrays.c -/

namespace test_arrays

/-- The `for` loop of `sum_array`, entered at its condition `i < size` with
the current `i` and `sum`; `fuel` bounds the number of iterations still to
run.  The array is threaded through as state and returned with the sum. -/
def sum_arrayLoop (size : Int) : Nat → List Int → Int → Int → Outcome (Int × List Int)
  | fuel, arr, i, sum =>
    if i < size then
      match fuel with
      | 0 => .outOfFuel
      | fuel + 1 =>
        match (if 0 ≤ i then arr[i.toNat]? else none) with
        | none => .outOfBounds
        | some v =>
          (intAdd sum v).bind fun sum1 =>
          (intAdd i 1).bind fun i1 =>
          sum_arrayLoop size fuel arr i1 sum1
    else .ok (sum, arr)

/-- The function `int sum_array(int arr[], int size)`: the value returned and
the contents of the array afterwards. -/
def sum_array (fuel : Nat) (arr : List Int) (size : Int) : Outcome (Int × List Int) :=
  sum_arrayLoop size fuel arr 0 0

/-- The function `main`: the text written to standard output and the value
returned. -/
def main (fuel : Nat) : Outcome (String × Int) :=
  let numbers : List Int := [1, 2, 3, 4, 5]
  let size : Int := (numbers.length : Int)
  (sum_array fuel numbers size).bind fun r =>
  .ok ("Array test: sum = " ++ fmtInt r.1 ++ "\n", 0)

end test_arrays

/-! ## tests/max-tests/base/test_loops.c -/

namespace test_loops

/-- The `for` loop of `factorial`, entered at its condition `i <= n` with the
current `i` and `result`; `fuel` bounds the number of iterations still to
run. -/
def factorialLoop (n : Int) : Nat → Int → Int → Outcome Int
  | fuel, i, result =>
    if i ≤ n then
      match fuel with
      | 0 => .outOfFuel
      | fuel + 1 =>
        (intMul result i).bind fun result1 =>
        (intAdd i 1).bind fun i1 =>
        factorialLoop n fuel i1 result1
    else .ok result

/-- The function `int factorial(int n)`. -/
def factorial (fuel : Nat) (n : Int) : Outcome Int :=
  if n ≤ 1 then .ok 1
  else factorialLoop n fuel 2 1

/-- The function `factorial` with its first statement `if (n <= 1) return 1;`
removed: the loop alone. -/
def factorialLoopOnly (fuel : Nat) (n : Int) : Outcome Int :=
  factorialLoop n fuel 2 1

/-- The function `main`: the text written to standard output and the value
returned. -/
def main (fuel : Nat) : Outcome (String × Int) :=
  let n : Int := 5
  (factorial fuel n).bind fun fact =>
  .ok ("Loop test: " ++ fmtInt n ++ "! = " ++ fmtInt fact ++ "\n", 0)

end test_loops

/-! ## projects/TMR/TMRNewPM.cpp -/

/-- Modelled from the spec: `llvm::PreservedAnalyses`, declared in the host
framework's headers and absent from the sources; the report a pass gives of
"which analyses it invalidates".  An analysis is named by a number;
`allPreserved` is the marker that every analysis is preserved. -/
structure PreservedAnalyses where
  allPreserved : Bool
  preservedIDs : List Nat
  deriving DecidableEq, Repr

namespace PreservedAnalyses

/-- The report `PreservedAnalyses::none()`: nothing is preserved. -/
def none : PreservedAnalyses := ⟨false, []⟩

/-- The report `PreservedAnalyses::all()`: everything is preserved. -/
def all : PreservedAnalyses := ⟨true, []⟩

/-- Whether the report says analysis `id` is preserved. -/
def preserves (pa : PreservedAnalyses) (id : Nat) : Bool :=
  pa.allPreserved || pa.preservedIDs.contains id

end PreservedAnalyses

/-- What a pass invocation acts on: the module `M` it holds by reference, and
the record of the calls made so far to `dataflowProtection::run`, each with
the module it was given and the redundancy factor. -/
structure PassState (Module : Type) where
  module : Module
  engineCalls : List (Module × Int)

namespace dataflowProtection

/-- The call `DP.run(M, factor)`.  The body of `dataflowProtection::run` is
declared in `../dataflowProtection/dataflowProtection.h`, absent from the
sources, and is the parameter `engine`: the module it leaves behind.  The
call is recorded. -/
def run {Module : Type} (engine : Module → Int → Module) (factor : Int)
    (s : PassState Module) : PassState Module :=
  { module := engine s.module factor
    engineCalls := s.engineCalls ++ [(s.module, factor)] }

end dataflowProtection

namespace TMRPass

/-- The method `PreservedAnalyses TMRPass::run(Module &M, ModuleAnalysisManager &)`. -/
def run {Module : Type} (engine : Module → Int → Module)
    (s : PassState Module) : PreservedAnalyses × PassState Module :=
  let s1 := dataflowProtection.run engine 3 s
  (PreservedAnalyses.none, s1)

end TMRPass

namespace DWCNewPMPass

/-- The method
`PreservedAnalyses DWCNewPMPass::run(Module &M, ModuleAnalysisManager &)`. -/
def run {Module : Type} (engine : Module → Int → Module)
    (s : PassState Module) : PreservedAnalyses × PassState Module :=
  let s1 := dataflowProtection.run engine 2 s
  (PreservedAnalyses.none, s1)

end DWCNewPMPass

/-- The passes the plugin defines. -/
inductive PluginPass where
  | TMRPass
  | DWCNewPMPass
  deriving DecidableEq, Repr

/-- Running a pass of the plugin: the `run` of its struct. -/
def runPluginPass {Module : Type} (p : PluginPass) (engine : Module → Int → Module)
    (s : PassState Module) : PreservedAnalyses × PassState Module :=
  match p with
  | .TMRPass => TMRPass.run engine s
  | .DWCNewPMPass => DWCNewPMPass.run engine s

/-- A pass held by a `ModulePassManager`: one of the plugin, or one the host
or another plugin put there. -/
inductive ModulePass where
  | plugin (p : PluginPass)
  | foreign (id : Nat)
  deriving DecidableEq, Repr

/-- The host's `ModulePassManager`: the passes in the order they were added. -/
abbrev ModulePassManager := List ModulePass

/-- The call `MPM.addPass(P)`. -/
def ModulePassManager.addPass (MPM : ModulePassManager) (P : ModulePass) :
    ModulePassManager :=
  MPM ++ [P]

/-- The lambda `llvmGetPassPluginInfo` registers with
`PB.registerPipelineParsingCallback`: the value it returns and the pass
manager afterwards.  The third argument is not looked at. -/
def pipelineParsingCallback {PipelineElement : Type} (Name : String)
    (MPM : ModulePassManager) (_pipeline : List PipelineElement) :
    Bool × ModulePassManager :=
  if Name = "tmr" then
    (true, MPM.addPass (.plugin .TMRPass))
  else if Name = "dwc" then
    (true, MPM.addPass (.plugin .DWCNewPMPass))
  else
    (false, MPM)

/-- The type of a pipeline-parsing callback. -/
abbrev PipelineParsingCallback (PipelineElement : Type) : Type :=
  String → ModulePassManager → List PipelineElement → Bool × ModulePassManager

/-- The host's `PassBuilder`, as far as the plugin touches it: the
pipeline-parsing callbacks registered with it, in order. -/
structure PassBuilder (PipelineElement : Type) where
  pipelineParsingCallbacks : List (PipelineParsingCallback PipelineElement)

/-- The call `PB.registerPipelineParsingCallback(C)`. -/
def PassBuilder.registerPipelineParsingCallback {PipelineElement : Type}
    (PB : PassBuilder PipelineElement) (C : PipelineParsingCallback PipelineElement) :
    PassBuilder PipelineElement :=
  { PB with pipelineParsingCallbacks := PB.pipelineParsingCallbacks ++ [C] }

/-- The host's `PassPluginLibraryInfo`. -/
structure PassPluginLibraryInfo (PipelineElement : Type) where
  APIVersion : Nat
  PluginName : String
  PluginVersion : String
  RegisterPassBuilderCallbacks : PassBuilder PipelineElement → PassBuilder PipelineElement

/-- The function `llvmGetPassPluginInfo()`.  The host's constant
`LLVM_PLUGIN_API_VERSION` is a parameter. -/
def llvmGetPassPluginInfo {PipelineElement : Type} (LLVM_PLUGIN_API_VERSION : Nat) :
    PassPluginLibraryInfo PipelineElement :=
  { APIVersion := LLVM_PLUGIN_API_VERSION
    PluginName := "COAST_TMR_DWC"
    PluginVersion := "0.1"
    RegisterPassBuilderCallbacks := fun PB =>
      PB.registerPipelineParsingCallback pipelineParsingCallback }

/-! ## The synchronization primitives of the protection engine -/

/-- What a synchronization point does with a clone group: forward one value
across the protection boundary, or route to the fault handler. -/
inductive SyncOutcome (α : Type) where
  | forward (v : α)
  | faultHandler
  deriving DecidableEq, Repr

/-- Modelled from the spec: the N=2 collapse of the Synchronization Inserter,
part of the absent `dataflowProtection` engine.  "Emit a comparison between
the two replica values; if unequal, route to a fault handler instead of
proceeding." -/
def compareCollapse {α : Type} [DecidableEq α] (r0 r1 : α) : SyncOutcome α :=
  if r0 = r1 then .forward r0 else .faultHandler

/-- Modelled from the spec: the N=3 collapse of the Synchronization Inserter,
part of the absent `dataflowProtection` engine.  "Emit pairwise comparisons
sufficient to select the value held by at least two of the three replicas;
if all three disagree, route to the fault handler." -/
def voteCollapse {α : Type} [DecidableEq α] (r0 r1 r2 : α) : SyncOutcome α :=
  if r0 = r1 then .forward r0
  else if r0 = r2 then .forward r0
  else if r1 = r2 then .forward r1
  else .faultHandler

/-! ## Reference definitions -/

/-- The Fibonacci sequence as the claim words it: `F(0) = 0`, `F(1) = 1`,
`F(n) = F(n-1) + F(n-2)`. -/
def fibSpec : Nat → Nat
  | 0 => 0
  | 1 => 1
  | n + 2 => fibSpec (n + 1) + fibSpec n

/-! ## Basic facts about outcomes and `int` arithmetic -/

@[simp]
theorem Outcome.bind_ok {α β : Type} (v : α) (k : α → Outcome β) :
    (Outcome.ok v).bind k = k v := rfl

@[simp]
theorem Outcome.bind_overflow {α β : Type} (k : α → Outcome β) :
    (Outcome.overflow : Outcome α).bind k = .overflow := rfl

@[simp]
theorem Outcome.bind_outOfBounds {α β : Type} (k : α → Outcome β) :
    (Outcome.outOfBounds : Outcome α).bind k = .outOfBounds := rfl

@[simp]
theorem Outcome.bind_outOfFuel {α β : Type} (k : α → Outcome β) :
    (Outcome.outOfFuel : Outcome α).bind k = .outOfFuel := rfl

theorem intResult_ok {v : Int} (h : inIntRange v) : intResult v = .ok v := by
  simp [intResult, h]

theorem intResult_overflow {v : Int} (h : ¬ inIntRange v) : intResult v = .overflow := by
  simp [intResult, h]

theorem intResult_cases (v : Int) : intResult v = .ok v ∨ intResult v = .overflow := by
  by_cases h : inIntRange v
  · exact Or.inl (intResult_ok h)
  · exact Or.inr (intResult_overflow h)

/-! ## test_arithmetic.c -/

/-- C4. When none of the intermediate results `x*x`, `2*x`, `x*x + 2*x`,
`x*x + 2*x + 1` overflows, `critical_computation(x)` returns
`x*x + 2*x + 1`, which is `(x+1)^2`; `critical_computation(5)` is 36 and
`main` of test_arithmetic returns 36. -/
theorem critical_computation_spec :
    (∀ x : Int, inIntRange (x * x) → inIntRange (2 * x) → inIntRange (x * x + 2 * x) →
        inIntRange (x * x + 2 * x + 1) →
        test_arithmetic.critical_computation x = .ok (x * x + 2 * x + 1) ∧
        x * x + 2 * x + 1 = (x + 1) ^ 2) ∧
    test_arithmetic.critical_computation 5 = .ok 36 ∧
    test_arithmetic.main = .ok ("Arithmetic test: f(5) = 36\n", 36) := by
  refine ⟨?_, by decide, by decide⟩
  intro x h1 h2 h3 h4
  refine ⟨?_, by ring⟩
  simp only [test_arithmetic.critical_computation, intMul, intAdd, intResult_ok h1,
    intResult_ok h2, intResult_ok h3, intResult_ok h4, Outcome.bind_ok]

/-- Witness of C4 at `x = 7`: the result is 64. -/
theorem critical_computation_spec_witness :
    test_arithmetic.critical_computation 7 = .ok (7 * 7 + 2 * 7 + 1) ∧
    (7 * 7 + 2 * 7 + 1 : Int) = (7 + 1) ^ 2 :=
  critical_computation_spec.1 7 (by decide) (by decide) (by decide) (by decide)

/-! ## TMRNewPM.cpp -/

/-- C1. Whatever the engine does and whatever was recorded before, one
invocation of a pass adds exactly one call of the engine to the record, on
the module the pass was given: `TMRPass::run` with factor 3,
`DWCNewPMPass::run` with factor 2, and the module left behind is the one the
engine produced from it.  Hence every pass of the plugin reaches the engine
exactly once and with a factor that is 2 or 3. -/
theorem pass_calls_engine_once {Module : Type} (engine : Module → Int → Module)
    (M : Module) (before : List (Module × Int)) :
    ((TMRPass.run engine ⟨M, before⟩).2.engineCalls = before ++ [(M, 3)] ∧
      (TMRPass.run engine ⟨M, before⟩).2.module = engine M 3) ∧
    ((DWCNewPMPass.run engine ⟨M, before⟩).2.engineCalls = before ++ [(M, 2)] ∧
      (DWCNewPMPass.run engine ⟨M, before⟩).2.module = engine M 2) ∧
    (∀ p : PluginPass, ∃ factor : Int, (factor = 2 ∨ factor = 3) ∧
      (runPluginPass p engine ⟨M, before⟩).2.engineCalls = before ++ [(M, factor)] ∧
      (runPluginPass p engine ⟨M, before⟩).2.engineCalls.length = before.length + 1) := by
  refine ⟨⟨rfl, rfl⟩, ⟨rfl, rfl⟩, ?_⟩
  intro p
  cases p
  · exact ⟨3, Or.inr rfl, rfl, by simp [runPluginPass, TMRPass.run, dataflowProtection.run]⟩
  · exact ⟨2, Or.inl rfl, rfl, by simp [runPluginPass, DWCNewPMPass.run, dataflowProtection.run]⟩

/-- C2. The plugin registers one pipeline-parsing callback.  It returns true
and appends the TMR pass for the name "tmr", returns true and appends the
DWC pass for the name "dwc", and for every other name returns false and
leaves the pass manager as it was; so it returns true exactly for these two
names, and in every case in which it returns true the pass manager has grown
by exactly one pass.  The names "TMR" and "" are among the others. -/
theorem pipelineParsingCallback_spec {PipelineElement : Type} (Name : String)
    (MPM : ModulePassManager) (pipeline : List PipelineElement) :
    (∀ (version : Nat) (PB : PassBuilder PipelineElement),
      ((llvmGetPassPluginInfo version).RegisterPassBuilderCallbacks PB).pipelineParsingCallbacks
        = PB.pipelineParsingCallbacks ++ [pipelineParsingCallback]) ∧
    (Name = "tmr" →
      pipelineParsingCallback Name MPM pipeline = (true, MPM ++ [.plugin .TMRPass])) ∧
    (Name = "dwc" →
      pipelineParsingCallback Name MPM pipeline = (true, MPM ++ [.plugin .DWCNewPMPass])) ∧
    (Name ≠ "tmr" → Name ≠ "dwc" →
      pipelineParsingCallback Name MPM pipeline = (false, MPM)) ∧
    ((pipelineParsingCallback Name MPM pipeline).1 = true ↔ (Name = "tmr" ∨ Name = "dwc")) ∧
    ((pipelineParsingCallback Name MPM pipeline).1 = true →
      (pipelineParsingCallback Name MPM pipeline).2.length = MPM.length + 1) ∧
    pipelineParsingCallback "TMR" MPM pipeline = (false, MPM) ∧
    pipelineParsingCallback "" MPM pipeline = (false, MPM) := by
  have hne : ("dwc" : String) ≠ "tmr" := by decide
  refine ⟨fun _ _ => rfl, ?_, ?_, ?_, ?_, ?_, ?_, ?_⟩
  · intro h
    simp [pipelineParsingCallback, ModulePassManager.addPass, h]
  · intro h
    subst h
    simp [pipelineParsingCallback, ModulePassManager.addPass, hne]
  · intro h1 h2
    simp [pipelineParsingCallback, h1, h2]
  · by_cases h1 : Name = "tmr"
    · simp [pipelineParsingCallback, h1]
    · by_cases h2 : Name = "dwc"
      · simp [pipelineParsingCallback, h1, h2]
      · simp [pipelineParsingCallback, h1, h2]
  · by_cases h1 : Name = "tmr"
    · simp [pipelineParsingCallback, ModulePassManager.addPass, h1]
    · by_cases h2 : Name = "dwc"
      · simp [pipelineParsingCallback, ModulePassManager.addPass, h1, h2]
      · simp [pipelineParsingCallback, h1, h2]
  · have a : ("TMR" : String) ≠ "tmr" := by decide
    have b : ("TMR" : String) ≠ "dwc" := by decide
    simp [pipelineParsingCallback, a, b]
  · have a : ("" : String) ≠ "tmr" := by decide
    have b : ("" : String) ≠ "dwc" := by decide
    simp [pipelineParsingCallback, a, b]

/-- Witness of C2: on a pass manager that already holds a foreign pass, the
name "dwc" is accepted and appends the DWC pass, and the name "Dwc" is
refused. -/
theorem pipelineParsingCallback_spec_witness :
    pipelineParsingCallback "dwc" [.foreign 0] ([] : List Unit) =
      (true, [.foreign 0] ++ [.plugin .DWCNewPMPass]) ∧
    pipelineParsingCallback "Dwc" [.foreign 0] ([] : List Unit) = (false, [.foreign 0]) :=
  ⟨(pipelineParsingCallback_spec "dwc" [.foreign 0] ([] : List Unit)).2.2.1 rfl,
   (pipelineParsingCallback_spec "Dwc" [.foreign 0] ([] : List Unit)).2.2.2.1
     (by decide) (by decide)⟩

/-- C3. Whatever the engine does to the module, changing it or not, and
whatever the module is, `TMRPass::run` and `DWCNewPMPass::run` return
`PreservedAnalyses::none()`, a report in which no analysis is preserved and
which differs from `PreservedAnalyses::all()`. -/
theorem pass_preserves_none {Module : Type} (engine : Module → Int → Module)
    (s : PassState Module) :
    (TMRPass.run engine s).1 = PreservedAnalyses.none ∧
    (DWCNewPMPass.run engine s).1 = PreservedAnalyses.none ∧
    (∀ p : PluginPass, ∀ id : Nat, (runPluginPass p engine s).1.preserves id = false) ∧
    PreservedAnalyses.none ≠ PreservedAnalyses.all := by
  refine ⟨rfl, rfl, ?_, by decide⟩
  intro p id
  cases p <;> rfl

/-! ## Synchronization primitives -/

/-- C7. Under triplication, when at least two of the three replica values
reaching a synchronization point are the fault-free value `v` (at most one
replica is corrupted), the vote forwards `v`; whenever the vote forwards a
value, at least two replicas hold it; and the fault handler is reached
exactly when the three replicas are pairwise different.  For
`critical_computation(5)`, replacing any one replica by an arbitrary outcome
`e` still forwards 36. -/
theorem voteCollapse_masks_single_fault :
    (∀ (α : Type) [DecidableEq α] (v r0 r1 r2 : α),
      ((r0 = v ∧ r1 = v) ∨ (r0 = v ∧ r2 = v) ∨ (r1 = v ∧ r2 = v)) →
      voteCollapse r0 r1 r2 = .forward v) ∧
    (∀ (α : Type) [DecidableEq α] (w r0 r1 r2 : α),
      voteCollapse r0 r1 r2 = .forward w →
      ((r0 = w ∧ r1 = w) ∨ (r0 = w ∧ r2 = w) ∨ (r1 = w ∧ r2 = w))) ∧
    (∀ (α : Type) [DecidableEq α] (r0 r1 r2 : α),
      voteCollapse r0 r1 r2 = .faultHandler ↔ (r0 ≠ r1 ∧ r0 ≠ r2 ∧ r1 ≠ r2)) ∧
    (∀ e : Outcome Int,
      voteCollapse e (test_arithmetic.critical_computation 5)
        (test_arithmetic.critical_computation 5) = .forward (.ok 36) ∧
      voteCollapse (test_arithmetic.critical_computation 5) e
        (test_arithmetic.critical_computation 5) = .forward (.ok 36) ∧
      voteCollapse (test_arithmetic.critical_computation 5)
        (test_arithmetic.critical_computation 5) e = .forward (.ok 36)) := by
  have h5 : test_arithmetic.critical_computation 5 = .ok 36 := by decide
  have key : ∀ (α : Type) [DecidableEq α] (v r0 r1 r2 : α),
      ((r0 = v ∧ r1 = v) ∨ (r0 = v ∧ r2 = v) ∨ (r1 = v ∧ r2 = v)) →
      voteCollapse r0 r1 r2 = .forward v := by
    intro α _ v r0 r1 r2 h
    unfold voteCollapse
    rcases h with ⟨a, b⟩ | ⟨a, b⟩ | ⟨a, b⟩
    · rw [a, b]; simp
    · rw [a, b]; by_cases c : v = r1 <;> simp [c]
    · rw [a, b]; by_cases c : r0 = v <;> simp [c]
  refine ⟨key, ?_, ?_, ?_⟩
  · intro α _ w r0 r1 r2 h
    unfold voteCollapse at h
    split_ifs at h with h1 h2 h3
    · injection h with h; subst h; exact Or.inl ⟨rfl, h1.symm⟩
    · injection h with h; subst h; exact Or.inr (Or.inl ⟨rfl, h2.symm⟩)
    · injection h with h; subst h; exact Or.inr (Or.inr ⟨rfl, h3.symm⟩)
  · intro α _ r0 r1 r2
    unfold voteCollapse
    by_cases h1 : r0 = r1
    · simp [h1]
    · by_cases h2 : r0 = r2
      · simp [h1, h2]
      · by_cases h3 : r1 = r2
        · simp [h1, h2, h3]
        · simp [h1, h2, h3]
  · intro e
    rw [h5]
    exact ⟨key _ _ _ _ _ (Or.inr (Or.inr ⟨rfl, rfl⟩)),
      key _ _ _ _ _ (Or.inr (Or.inl ⟨rfl, rfl⟩)),
      key _ _ _ _ _ (Or.inl ⟨rfl, rfl⟩)⟩

/-- Witness of C7: the replicas 36, 36 and the corrupted 35 vote 36. -/
theorem voteCollapse_masks_single_fault_witness :
    voteCollapse (36 : Int) 36 35 = .forward 36 :=
  voteCollapse_masks_single_fault.1 Int 36 36 36 35 (Or.inl ⟨rfl, rfl⟩)

/-- C8. Under duplication, when the two replica values differ the collapse
routes to the fault handler and forwards no value at all, neither replica's;
when they are equal it forwards their common value unchanged. -/
theorem compareCollapse_detects :
    (∀ (α : Type) [DecidableEq α] (r0 r1 : α), r0 ≠ r1 →
      compareCollapse r0 r1 = .faultHandler ∧
      ∀ w : α, compareCollapse r0 r1 ≠ .forward w) ∧
    (∀ (α : Type) [DecidableEq α] (r0 r1 : α), r0 = r1 →
      compareCollapse r0 r1 = .forward r0 ∧ compareCollapse r0 r1 = .forward r1) ∧
    (∀ (α : Type) [DecidableEq α] (r0 r1 w : α),
      compareCollapse r0 r1 = .forward w → r0 = w ∧ r1 = w) := by
  refine ⟨?_, ?_, ?_⟩
  · intro α _ r0 r1 h
    simp [compareCollapse, h]
  · intro α _ r0 r1 h
    subst h
    simp [compareCollapse]
  · intro α _ r0 r1 w h
    unfold compareCollapse at h
    split_ifs at h with h1
    injection h with h
    subst h
    exact ⟨rfl, h1.symm⟩

/-- Witness of C8: the replicas 36 and 35 reach the fault handler, the
replicas 36 and 36 forward 36. -/
theorem compareCollapse_detects_witness :
    (compareCollapse (36 : Int) 35 = .faultHandler ∧
      ∀ w : Int, compareCollapse (36 : Int) 35 ≠ .forward w) ∧
    (compareCollapse (36 : Int) 36 = .forward 36 ∧
      compareCollapse (36 : Int) 36 = .forward 36) :=
  ⟨compareCollapse_detects.1 Int 36 35 (by decide),
   compareCollapse_detects.2.1 Int 36 36 rfl⟩

/-! ## test_recursive.c -/

theorem fibSpec_le_succ (n : Nat) : fibSpec n ≤ fibSpec (n + 1) := by
  cases n with
  | zero => decide
  | succ k => simp [fibSpec]

theorem fibSpec_mono {m n : Nat} (h : m ≤ n) : fibSpec m ≤ fibSpec n :=
  monotone_nat_of_le_succ fibSpec_le_succ h

theorem fibSpec_pos {n : Nat} (h : 1 ≤ n) : 1 ≤ fibSpec n :=
  fibSpec_mono h

theorem le_fibSpec_add_one (n : Nat) : n ≤ fibSpec n + 1 := by
  induction n using Nat.strong_induction_on with
  | _ n ih =>
    match n with
    | 0 => simp
    | 1 => simp [fibSpec]
    | 2 => simp [fibSpec]
    | k + 3 =>
      have h1 := ih (k + 2) (by omega)
      have h2 : 1 ≤ fibSpec (k + 1) := fibSpec_pos (by omega)
      have e : fibSpec (k + 3) = fibSpec (k + 2) + fibSpec (k + 1) := rfl
      omega

theorem fibonacciBody_base (self : Int → Outcome Int) {n : Int} (h : n ≤ 1) :
    test_recursive.fibonacciBody self n = .ok n := by
  simp [test_recursive.fibonacciBody, h]

theorem fibonacciBody_congr (self1 self2 : Int → Outcome Int) (n : Int)
    (h : ∀ m : Int, 0 ≤ m → m < n → self1 m = self2 m) :
    test_recursive.fibonacciBody self1 n = test_recursive.fibonacciBody self2 n := by
  unfold test_recursive.fibonacciBody
  by_cases hn : n ≤ 1
  · simp [hn]
  · simp only [hn, if_false]
    have e1 : self1 (n - 1) = self2 (n - 1) := h _ (by omega) (by omega)
    have e2 : self1 (n - 2) = self2 (n - 2) := h _ (by omega) (by omega)
    rcases intResult_cases (n - 1) with a | a <;> rcases intResult_cases (n - 2) with b | b <;>
      simp [intSub, a, b, e1, e2]

theorem fibonacciBody_ne_outOfFuel (self : Int → Outcome Int) (n : Int)
    (h : ∀ m : Int, 0 ≤ m → m < n → self m ≠ .outOfFuel) :
    test_recursive.fibonacciBody self n ≠ .outOfFuel := by
  unfold test_recursive.fibonacciBody
  by_cases hn : n ≤ 1
  · simp [hn]
  · simp only [hn, if_false]
    have e1 : self (n - 1) ≠ .outOfFuel := h _ (by omega) (by omega)
    have e2 : self (n - 2) ≠ .outOfFuel := h _ (by omega) (by omega)
    rcases intResult_cases (n - 1) with a | a
    · rcases intResult_cases (n - 2) with b | b
      · simp only [intSub, a, b, Outcome.bind_ok]
        cases h1 : self (n - 1) with
        | ok x =>
          cases h2 : self (n - 2) with
          | ok y =>
            rcases intResult_cases (x + y) with c | c <;> simp [intAdd, c]
          | overflow => simp
          | outOfBounds => simp
          | outOfFuel => exact absurd h2 e2
        | overflow => simp
        | outOfBounds => simp
        | outOfFuel => exact absurd h1 e1
      · simp only [intSub, a, b, Outcome.bind_ok]
        cases h1 : self (n - 1) with
        | ok x => simp
        | overflow => simp
        | outOfBounds => simp
        | outOfFuel => exact absurd h1 e1
    · simp [intSub, a]

theorem fibonacci_fuel_irrelevant (k : Nat) :
    ∀ (n : Int) (f1 f2 : Nat), n.toNat ≤ k → k < f1 → k < f2 →
      test_recursive.fibonacci f1 n = test_recursive.fibonacci f2 n ∧
      test_recursive.fibonacci f1 n ≠ .outOfFuel := by
  induction k with
  | zero =>
    intro n f1 f2 hn h1 h2
    obtain ⟨g1, rfl⟩ : ∃ g, f1 = g + 1 := ⟨f1 - 1, by omega⟩
    obtain ⟨g2, rfl⟩ : ∃ g, f2 = g + 1 := ⟨f2 - 1, by omega⟩
    have hn1 : n ≤ 1 := by omega
    simp [test_recursive.fibonacci, fibonacciBody_base _ hn1]
  | succ k ih =>
    intro n f1 f2 hn h1 h2
    obtain ⟨g1, rfl⟩ : ∃ g, f1 = g + 1 := ⟨f1 - 1, by omega⟩
    obtain ⟨g2, rfl⟩ : ∃ g, f2 = g + 1 := ⟨f2 - 1, by omega⟩
    simp only [test_recursive.fibonacci]
    constructor
    · apply fibonacciBody_congr
      intro m hm0 hmn
      exact (ih m g1 g2 (by omega) (by omega) (by omega)).1
    · apply fibonacciBody_ne_outOfFuel
      intro m hm0 hmn
      exact (ih m g1 g1 (by omega) (by omega) (by omega)).2

theorem fibonacci_eq_fibSpec (fuel : Nat) :
    ∀ n : Nat, n < fuel → (fibSpec n : Int) ≤ INT_MAX →
      test_recursive.fibonacci fuel (n : Int) = .ok (fibSpec n : Int) := by
  induction fuel with
  | zero => intro n h; omega
  | succ fuel ih =>
    intro n hlt hfit
    match n, hlt, hfit with
    | 0, _, _ => simp [test_recursive.fibonacci, test_recursive.fibonacciBody, fibSpec]
    | 1, _, _ => simp [test_recursive.fibonacci, test_recursive.fibonacciBody, fibSpec]
    | k + 2, hlt, hfit =>
      have hmax : INT_MAX = 2147483647 := rfl
      have hmin : INT_MIN = -2147483648 := rfl
      have hk : k + 2 ≤ fibSpec (k + 2) + 1 := le_fibSpec_add_one (k + 2)
      have hm1 : fibSpec (k + 1) ≤ fibSpec (k + 2) := fibSpec_mono (by omega)
      have hm0 : fibSpec k ≤ fibSpec (k + 2) := fibSpec_mono (by omega)
      have hrec : fibSpec (k + 2) = fibSpec (k + 1) + fibSpec k := rfl
      have i1 := ih (k + 1) (by omega) (by omega)
      have i0 := ih k (by omega) (by omega)
      have a : intSub ((k + 2 : Nat) : Int) 1 = .ok ((k + 1 : Nat) : Int) := by
        have : (((k + 2 : Nat) : Int) - 1) = ((k + 1 : Nat) : Int) := by push_cast; ring
        rw [intSub, this]
        exact intResult_ok ⟨by omega, by omega⟩
      have b : intSub ((k + 2 : Nat) : Int) 2 = .ok ((k : Nat) : Int) := by
        have : (((k + 2 : Nat) : Int) - 2) = ((k : Nat) : Int) := by push_cast; ring
        rw [intSub, this]
        exact intResult_ok ⟨by omega, by omega⟩
      have c : intAdd (fibSpec (k + 1) : Int) (fibSpec k : Int) =
          .ok ((fibSpec (k + 2) : Nat) : Int) := by
        have : ((fibSpec (k + 1) : Int) + (fibSpec k : Int)) = ((fibSpec (k + 2) : Nat) : Int) := by
          rw [hrec]; push_cast; ring
        rw [intAdd, this]
        exact intResult_ok ⟨by omega, by omega⟩
      have hn1 : ¬ (((k + 2 : Nat) : Int) ≤ 1) := by omega
      simp only [test_recursive.fibonacci, test_recursive.fibonacciBody, hn1, if_false, a, b,
        i1, i0, c, Outcome.bind_ok]

theorem fibSpec_eq_fib (n : Nat) : fibSpec n = Nat.fib n := by
  induction n using Nat.strong_induction_on with
  | _ n ih =>
    match n with
    | 0 => rfl
    | 1 => rfl
    | k + 2 =>
      have e : fibSpec (k + 2) = fibSpec (k + 1) + fibSpec k := rfl
      rw [e, ih (k + 1) (by omega), ih k (by omega), Nat.fib_add_two]
      omega

theorem fibSpec_46 : fibSpec 46 = 1836311903 := by
  rw [fibSpec_eq_fib]
  norm_num [Nat.fib_add_two]

theorem fibonacciBody_step (self : Int → Outcome Int) {n : Int} (h1 : 1 < n)
    (h2 : n ≤ INT_MAX) :
    test_recursive.fibonacciBody self n =
      (self (n - 1)).bind fun fa => (self (n - 2)).bind fun fb => intAdd fa fb := by
  have hmax : INT_MAX = 2147483647 := rfl
  have hmin : INT_MIN = -2147483648 := rfl
  have a : intSub n 1 = .ok (n - 1) := intResult_ok ⟨by omega, by omega⟩
  have b : intSub n 2 = .ok (n - 2) := intResult_ok ⟨by omega, by omega⟩
  have hn : ¬ n ≤ 1 := by omega
  simp only [test_recursive.fibonacciBody, hn, if_false, a, b, Outcome.bind_ok]

/-- C5. For every `n ≥ 0` whose Fibonacci number `F(n)` fits in an `int`,
and every fuel above `n`, `fibonacci(n)` returns `F(n)`, where `F(0) = 0`,
`F(1) = 1`, `F(n+2) = F(n+1) + F(n)`; these are the `n ≤ 46`.  In
particular `fibonacci(10) = 55`, and `main` of test_recursive prints it and
returns 0. -/
theorem fibonacci_computes_fibSpec :
    (∀ n fuel : Nat, (fibSpec n : Int) ≤ INT_MAX → n < fuel →
      test_recursive.fibonacci fuel (n : Int) = .ok (fibSpec n : Int)) ∧
    (∀ n fuel : Nat, n ≤ 46 → n < fuel →
      test_recursive.fibonacci fuel (n : Int) = .ok (fibSpec n : Int)) ∧
    (fibSpec 0 = 0 ∧ fibSpec 1 = 1 ∧ ∀ n, fibSpec (n + 2) = fibSpec (n + 1) + fibSpec n) ∧
    (fibSpec 10 = 55 ∧ test_recursive.fibonacci 10 10 = .ok 55) ∧
    test_recursive.main 10 = .ok ("Recursive test: fib(10) = 55\n", 0) := by
  refine ⟨fun n fuel hfit hlt => fibonacci_eq_fibSpec fuel n hlt hfit, ?_,
    ⟨rfl, rfl, fun _ => rfl⟩, ⟨by decide, by decide⟩, by decide⟩
  intro n fuel hn hlt
  apply fibonacci_eq_fibSpec fuel n hlt
  have h := fibSpec_mono hn
  rw [fibSpec_46] at h
  have hmax : INT_MAX = 2147483647 := rfl
  omega

/-- Witness of C5 at `n = 12` with fuel 13: the result is `F(12)`. -/
theorem fibonacci_computes_fibSpec_witness :
    test_recursive.fibonacci 13 ((12 : Nat) : Int) = .ok (fibSpec 12 : Int) :=
  fibonacci_computes_fibSpec.1 12 13 (by decide) (by decide)

/-- C10. `fibonacci` terminates on every `n`.  For `n ≤ 1`, negative `n`
included, its body returns `n` whatever the recursive calls would return, so
a call stack of depth one suffices.  For an `int` `n > 1` the body makes its
recursive calls on `n-1` and `n-2`, which are at least 0 and below `n`, and
on no argument outside `[0, n)`: two candidates for the recursive call that
agree there give the same result.  So with fuel above `n` the outcome is
never exhaustion of the fuel, and it is the same for every such fuel. -/
theorem fibonacci_terminates :
    (∀ (n : Int) (self : Int → Outcome Int), n ≤ 1 →
      test_recursive.fibonacciBody self n = .ok n) ∧
    (∀ (n : Int) (fuel : Nat), n ≤ 1 → test_recursive.fibonacci (fuel + 1) n = .ok n) ∧
    (∀ (n : Int) (self : Int → Outcome Int), 1 < n → n ≤ INT_MAX →
      test_recursive.fibonacciBody self n =
        ((self (n - 1)).bind fun fa => (self (n - 2)).bind fun fb => intAdd fa fb) ∧
      0 ≤ n - 2 ∧ n - 2 < n ∧ 0 ≤ n - 1 ∧ n - 1 < n) ∧
    (∀ (n : Int) (self1 self2 : Int → Outcome Int),
      (∀ m : Int, 0 ≤ m → m < n → self1 m = self2 m) →
      test_recursive.fibonacciBody self1 n = test_recursive.fibonacciBody self2 n) ∧
    (∀ (n : Int) (fuel : Nat), n.toNat < fuel →
      test_recursive.fibonacci fuel n ≠ .outOfFuel ∧
      test_recursive.fibonacci fuel n = test_recursive.fibonacci (n.toNat + 1) n) := by
  refine ⟨fun n self h => fibonacciBody_base self h, ?_, ?_,
    fun n self1 self2 h => fibonacciBody_congr self1 self2 n h, ?_⟩
  · intro n fuel h
    simp [test_recursive.fibonacci, fibonacciBody_base _ h]
  · intro n self h1 h2
    exact ⟨fibonacciBody_step self h1 h2, by omega, by omega, by omega, by omega⟩
  · intro n fuel h
    have := fibonacci_fuel_irrelevant n.toNat n fuel (n.toNat + 1) (le_refl _) h (by omega)
    exact ⟨this.2, this.1⟩

/-- Witness of C10: `fibonacci(-3)` returns -3 with a stack of depth one, and
`fibonacci(10)` with fuel 11 does not run out of fuel. -/
theorem fibonacci_terminates_witness :
    test_recursive.fibonacci (0 + 1) (-3) = .ok (-3) ∧
    (test_recursive.fibonacci 11 10 ≠ .outOfFuel ∧
      test_recursive.fibonacci 11 10 = test_recursive.fibonacci ((10 : Int).toNat + 1) 10) :=
  ⟨fibonacci_terminates.2.1 (-3) 0 (by decide),
   fibonacci_terminates.2.2.2.2 10 11 (by decide)⟩

/-! ## test_loops.c -/

theorem factorialLoop_exit (n : Int) (fuel : Nat) (i result : Int) (h : ¬ i ≤ n) :
    test_loops.factorialLoop n fuel i result = .ok result := by
  cases fuel <;> simp [test_loops.factorialLoop, h]

theorem factorialLoop_step (n : Int) (fuel : Nat) (i result : Int) (h : i ≤ n) :
    test_loops.factorialLoop n (fuel + 1) i result =
      (intMul result i).bind fun result1 =>
      (intAdd i 1).bind fun i1 =>
      test_loops.factorialLoop n fuel i1 result1 := by
  simp [test_loops.factorialLoop, h]

theorem factorial_12 : Nat.factorial 12 = 479001600 := by decide

theorem factorialLoop_invariant (m : Nat) (hm : m ≤ 12) (fuel : Nat) :
    ∀ j : Nat, j ≤ m → m - j ≤ fuel →
      test_loops.factorialLoop (m : Int) fuel ((j + 1 : Nat) : Int) (Nat.factorial j : Int) =
        .ok (Nat.factorial m : Int) := by
  have hmax : INT_MAX = 2147483647 := rfl
  have hmin : INT_MIN = -2147483648 := rfl
  induction fuel with
  | zero =>
    intro j hj hf
    have e : j = m := by omega
    subst e
    exact factorialLoop_exit _ _ _ _ (by push_cast; omega)
  | succ fuel ih =>
    intro j hj hf
    by_cases e : j = m
    · subst e
      exact factorialLoop_exit _ _ _ _ (by push_cast; omega)
    · have hlt : j < m := by omega
      have hb : Nat.factorial (j + 1) ≤ 479001600 := by
        rw [← factorial_12]
        exact Nat.factorial_le (by omega)
      have a : intMul (Nat.factorial j : Int) ((j + 1 : Nat) : Int) =
          .ok ((Nat.factorial (j + 1) : Nat) : Int) := by
        have : (Nat.factorial j : Int) * ((j + 1 : Nat) : Int) =
            ((Nat.factorial (j + 1) : Nat) : Int) := by
          rw [Nat.factorial_succ]; push_cast; ring
        rw [intMul, this]
        exact intResult_ok ⟨by omega, by omega⟩
      have b : intAdd ((j + 1 : Nat) : Int) 1 = .ok ((j + 1 + 1 : Nat) : Int) := by
        have : ((j + 1 : Nat) : Int) + 1 = ((j + 1 + 1 : Nat) : Int) := by push_cast; ring
        rw [intAdd, this]
        exact intResult_ok ⟨by omega, by omega⟩
      rw [factorialLoop_step _ _ _ _ (by push_cast; omega), a, b]
      exact ih (j + 1) (by omega) (by omega)

/-- C9. For every `n` with `0 ≤ n ≤ 12` and fuel for `n - 1` iterations,
`factorial(n)` returns `n!`; for every `n ≤ 1`, negative `n` included, it
returns 1; `factorial(5) = 120`, and `main` of test_loops prints it and
returns 0.  The function without its early return, the loop alone, has the
same outcome as `factorial` on every `n` and every fuel. -/
theorem factorial_spec :
    (∀ (n : Int) (fuel : Nat), 0 ≤ n → n ≤ 12 → n.toNat ≤ fuel + 1 →
      test_loops.factorial fuel n = .ok (Nat.factorial n.toNat : Int)) ∧
    (∀ (n : Int) (fuel : Nat), n ≤ 1 → test_loops.factorial fuel n = .ok 1) ∧
    test_loops.factorial 4 5 = .ok 120 ∧
    test_loops.main 4 = .ok ("Loop test: 5! = 120\n", 0) ∧
    (∀ (n : Int) (fuel : Nat),
      test_loops.factorialLoopOnly fuel n = test_loops.factorial fuel n) := by
  refine ⟨?_, ?_, by decide, by decide, ?_⟩
  · intro n fuel h0 h12 hf
    obtain ⟨m, rfl⟩ : ∃ m : Nat, n = (m : Int) := ⟨n.toNat, (Int.toNat_of_nonneg h0).symm⟩
    simp only [Int.toNat_ofNat] at hf ⊢
    by_cases h1 : (m : Int) ≤ 1
    · have hm : m = 0 ∨ m = 1 := by omega
      rcases hm with rfl | rfl <;> simp [test_loops.factorial]
    · have h := factorialLoop_invariant m (by omega) fuel 1 (by omega) (by omega)
      simp only [test_loops.factorial, h1, if_false]
      simpa using h
  · intro n fuel h
    simp [test_loops.factorial, h]
  · intro n fuel
    by_cases h : n ≤ 1
    · simp only [test_loops.factorialLoopOnly, test_loops.factorial, h, if_true]
      exact factorialLoop_exit _ _ _ _ (by omega)
    · simp [test_loops.factorialLoopOnly, test_loops.factorial, h]

/-- Witness of C9: `factorial(12)` with fuel 11 is `12!`, and
`factorial(-7)` is 1. -/
theorem factorial_spec_witness :
    test_loops.factorial 11 12 = .ok (Nat.factorial (12 : Int).toNat : Int) ∧
    test_loops.factorial 0 (-7) = .ok 1 :=
  ⟨factorial_spec.1 12 11 (by decide) (by decide) (by decide),
   factorial_spec.2.1 (-7) 0 (by decide)⟩

/-! ## test_arrays.c -/

theorem sum_arrayLoop_exit (size : Int) (fuel : Nat) (arr : List Int) (i sum : Int)
    (h : ¬ i < size) :
    test_arrays.sum_arrayLoop size fuel arr i sum = .ok (sum, arr) := by
  cases fuel <;> simp [test_arrays.sum_arrayLoop, h]

theorem sum_arrayLoop_step (size : Int) (fuel : Nat) (arr : List Int) (i sum v : Int)
    (h : i < size) (h0 : 0 ≤ i) (hv : arr[i.toNat]? = some v) :
    test_arrays.sum_arrayLoop size (fuel + 1) arr i sum =
      (intAdd sum v).bind fun sum1 =>
      (intAdd i 1).bind fun i1 =>
      test_arrays.sum_arrayLoop size fuel arr i1 sum1 := by
  simp [test_arrays.sum_arrayLoop, h, h0, hv]

theorem sum_arrayLoop_invariant (arr : List Int) (sz : Nat) (hlen : sz ≤ arr.length)
    (hsz : (sz : Int) ≤ INT_MAX)
    (hsum : ∀ k : Nat, k ≤ sz → inIntRange (arr.take k).sum) (fuel : Nat) :
    ∀ j : Nat, j ≤ sz → sz - j ≤ fuel →
      test_arrays.sum_arrayLoop (sz : Int) fuel arr (j : Int) (arr.take j).sum =
        .ok ((arr.take sz).sum, arr) := by
  have hmax : INT_MAX = 2147483647 := rfl
  have hmin : INT_MIN = -2147483648 := rfl
  induction fuel with
  | zero =>
    intro j hj hf
    have e : j = sz := by omega
    subst e
    exact sum_arrayLoop_exit _ _ _ _ _ (by omega)
  | succ fuel ih =>
    intro j hj hf
    by_cases e : j = sz
    · subst e
      exact sum_arrayLoop_exit _ _ _ _ _ (by omega)
    · have hlt : j < sz := by omega
      have hjl : j < arr.length := by omega
      have hv : arr[((j : Nat) : Int).toNat]? = some arr[j] := by
        simp [List.getElem?_eq_getElem hjl]
      have hs : (arr.take j).sum + arr[j] = (arr.take (j + 1)).sum :=
        (List.sum_take_succ arr j hjl).symm
      have a : intAdd (arr.take j).sum arr[j] = .ok (arr.take (j + 1)).sum := by
        rw [intAdd, hs]
        exact intResult_ok (hsum (j + 1) (by omega))
      have b : intAdd (j : Int) 1 = .ok ((j + 1 : Nat) : Int) := by
        have : (j : Int) + 1 = ((j + 1 : Nat) : Int) := by push_cast; ring
        rw [intAdd, this]
        exact intResult_ok ⟨by omega, by omega⟩
      rw [sum_arrayLoop_step _ _ _ _ _ _ (by omega) (by omega) hv, a, b]
      exact ih (j + 1) (by omega) (by omega)

theorem sum_arrayLoop_array_unchanged (size : Int) (fuel : Nat) :
    ∀ (arr : List Int) (i sum v : Int) (arr1 : List Int),
      test_arrays.sum_arrayLoop size fuel arr i sum = .ok (v, arr1) → arr1 = arr := by
  induction fuel with
  | zero =>
    intro arr i sum v arr1 h
    by_cases c : i < size
    · simp [test_arrays.sum_arrayLoop, c] at h
    · rw [sum_arrayLoop_exit _ _ _ _ _ c] at h
      injection h with h
      exact (congrArg Prod.snd h).symm
  | succ fuel ih =>
    intro arr i sum v arr1 h
    by_cases c : i < size
    · by_cases c0 : 0 ≤ i
      · cases hv : arr[i.toNat]? with
        | none => simp [test_arrays.sum_arrayLoop, c, c0, hv] at h
        | some w =>
          rw [sum_arrayLoop_step _ _ _ _ _ _ c c0 hv] at h
          rcases intResult_cases (sum + w) with a | a
          · rcases intResult_cases (i + 1) with b | b
            · simp only [intAdd, a, b, Outcome.bind_ok] at h
              exact ih _ _ _ _ _ h
            · simp [intAdd, a, b] at h
          · simp [intAdd, a] at h
      · simp [test_arrays.sum_arrayLoop, c, c0] at h
    · rw [sum_arrayLoop_exit _ _ _ _ _ c] at h
      injection h with h
      exact (congrArg Prod.snd h).symm

/-- C6. For every array `arr` and every `int` `size` with
`0 ≤ size ≤ length(arr)` such that no partial sum `arr[0] + ... + arr[k-1]`,
`k ≤ size`, overflows, and fuel for `size` iterations, `sum_array(arr, size)`
returns `arr[0] + ... + arr[size-1]` and leaves the array as it was; for
`size ≤ 0` it returns 0, whatever the array; whenever it returns, the array
is unchanged; over `{1,2,3,4,5}` with size 5 the sum is 15, and `main` of
test_arrays prints it and returns 0. -/
theorem sum_array_spec :
    (∀ (arr : List Int) (size : Int) (fuel : Nat), 0 ≤ size → size ≤ arr.length →
      size ≤ INT_MAX → (∀ k : Nat, k ≤ size.toNat → inIntRange (arr.take k).sum) →
      size.toNat ≤ fuel →
      test_arrays.sum_array fuel arr size = .ok ((arr.take size.toNat).sum, arr)) ∧
    (∀ (arr : List Int) (size : Int) (fuel : Nat), size ≤ 0 →
      test_arrays.sum_array fuel arr size = .ok (0, arr)) ∧
    (∀ (arr : List Int) (size : Int) (fuel : Nat) (v : Int) (arr1 : List Int),
      test_arrays.sum_array fuel arr size = .ok (v, arr1) → arr1 = arr) ∧
    test_arrays.sum_array 5 [1, 2, 3, 4, 5] 5 = .ok (15, [1, 2, 3, 4, 5]) ∧
    test_arrays.main 5 = .ok ("Array test: sum = 15\n", 0) := by
  refine ⟨?_, ?_, ?_, by decide, by decide⟩
  · intro arr size fuel h0 hlen hmax hsum hf
    obtain ⟨sz, rfl⟩ : ∃ sz : Nat, size = (sz : Int) :=
      ⟨size.toNat, (Int.toNat_of_nonneg h0).symm⟩
    simp only [Int.toNat_ofNat] at hf hsum ⊢
    have h := sum_arrayLoop_invariant arr sz (by exact_mod_cast hlen) hmax hsum fuel 0
      (by omega) (by omega)
    simpa [test_arrays.sum_array] using h
  · intro arr size fuel h
    exact sum_arrayLoop_exit _ _ _ _ _ (by omega)
  · intro arr size fuel v arr1 h
    exact sum_arrayLoop_array_unchanged size fuel arr 0 0 v arr1 h

/-- Witness of C6: the first three elements of `{4, -9, 7, 100}` sum to 2,
and the array is unchanged. -/
theorem sum_array_spec_witness :
    test_arrays.sum_array 3 [4, -9, 7, 100] 3 =
      .ok ((([4, -9, 7, 100] : List Int).take (3 : Int).toNat).sum, [4, -9, 7, 100]) :=
  sum_array_spec.1 [4, -9, 7, 100] 3 3 (by decide) (by decide) (by decide)
    (by decide) (by decide)
